import Mathlib

/-!
# Verification of the OpenCIO-Panda3D render-state core and config-page manager

A shallow embedding of the operations of `panda/src/pgraph/renderState.cxx`
and `dtool/src/prc/configPageManager.cxx`, together with proofs of the
specified properties.

Render attributes (`RenderAttrib`) are external collaborators of this slice
of the repository: their `compose`, `invert_compose`,
`lower_attrib_can_override`, slot assignment and value comparison are not in
the covered source.  They are therefore modelled abstractly by an `AttribOps`
record over an arbitrary attribute value type `α`; the state-level theorems
quantify over it, and concrete instantiations are used for counterexamples
and witnesses.
-/

namespace Panda

/-- One entry of a RenderState's dense attribute table: the nullable
attribute pointer `_attrib` together with the `_override` priority
(`RenderState::Attribute` from the header). An absent attribute is `none`. -/
structure Attribute (α : Type) where
  attrib : Option α
  override : Int
deriving DecidableEq, Repr

/-- The operations the state core consumes from the external attribute
implementations and the slot registry (`RenderAttribRegistry`):
attribute-level composition, inverted composition, the
`lower_attrib_can_override` opt-in, the attribute's registered slot, the
per-slot identity default, and the attribute-level value comparison used by
the intern set. -/
structure AttribOps (n : Nat) (α : Type) where
  compose : α → α → α
  invert_compose : α → α → α
  lower_attrib_can_override : α → Bool
  get_slot : α → Fin n
  slot_default : Fin n → α
  compare_to : α → α → Int

/-- A `RenderState`: a fixed-capacity dense table of attribute entries
indexed by slot, plus the `_filled_slots` bitmask (bit `s` set iff slot `s`
holds an entry). The composition caches, refcounts and bookkeeping fields
are modelled separately where a claim needs them. -/
structure RenderState (n : Nat) (α : Type) where
  attributes : Fin n → Attribute α
  filled_slots : Fin n → Bool

instance {n : Nat} {α : Type} [DecidableEq α] : DecidableEq (RenderState n α) :=
  fun s t =>
    if h : s.attributes = t.attributes ∧ s.filled_slots = t.filled_slots then
      isTrue (by cases s; cases t; simp_all)
    else
      isFalse (by intro he; cases he; simp_all)

namespace RenderState

variable {n : Nat} {α : Type}

/-- The freshly-constructed state: every slot empty, every entry
`(nullptr, 0)` (the `RenderState` constructor default-initializes the
attribute table and leaves `_filled_slots` cleared). -/
def emptyState (n : Nat) (α : Type) : RenderState n α :=
  { attributes := fun _ => ⟨none, 0⟩, filled_slots := fun _ => false }

/-- `is_empty()`: true iff the `_filled_slots` bitmask is zero. -/
def is_empty [DecidableEq α] (s : RenderState n α) : Bool :=
  decide (∀ k, s.filled_slots k = false)

/-- Well-formedness invariant maintained by every constructor of the source:
a filled slot holds a non-null attribute, and an unfilled slot holds the
default-initialized entry `(nullptr, 0)`. -/
def wf (s : RenderState n α) : Prop :=
  ∀ k, (s.filled_slots k = true → (s.attributes k).attrib ≠ none) ∧
       (s.filled_slots k = false → s.attributes k = ⟨none, 0⟩)

instance [DecidableEq α] (s : RenderState n α) : Decidable (wf s) := by
  unfold wf; infer_instance

/-- `return_new` sanitizes the reserved slot 0 (`state->_attributes[0]._attrib
= nullptr; state->_filled_slots.clear_bit(0);`) before handing the state to
the interner.  The interner itself returns a canonical pointer that is
structurally equal to its argument, so at the level of state values
`return_new` is just the slot-0 normalization; the pointer-level behaviour
of `return_unique` is modelled separately by `Intern.return_unique`. -/
def return_new (s : RenderState n α) : RenderState n α :=
  { attributes := fun k => if k.val = 0 then ⟨none, 0⟩ else s.attributes k,
    filled_slots := fun k => if k.val = 0 then false else s.filled_slots k }

/-- Slot 0 is reserved and always empty in any state that has passed through
`return_new`. -/
def slot0_empty (s : RenderState n α) : Prop :=
  ∀ k : Fin n, k.val = 0 → s.filled_slots k = false ∧ s.attributes k = ⟨none, 0⟩

instance [DecidableEq α] (s : RenderState n α) : Decidable (slot0_empty s) := by
  unfold slot0_empty; infer_instance

/-- `RenderState::do_compose`: the per-slot merge over the union of the two
filled-slot masks.  Slots outside the union keep the fresh state's default
entry, exactly as in the source (`new RenderState` followed by the
lowest-on-bit loop). -/
def do_compose [DecidableEq α] (ops : AttribOps n α) (s other : RenderState n α) :
    RenderState n α :=
  return_new
    { filled_slots := fun k => s.filled_slots k || other.filled_slots k,
      attributes := fun k =>
        if s.filled_slots k || other.filled_slots k then
          let a := s.attributes k
          let b := other.attributes k
          match a.attrib, b.attrib with
          | none, _ => b
          | some _, none => a
          | some xa, some xb =>
            if b.override < a.override then
              a
            else if a.override < b.override &&
                ops.lower_attrib_can_override xa then
              b
            else
              ⟨some (ops.compose xa xb), b.override⟩
        else
          ⟨none, 0⟩ }

/-- `RenderState::do_invert_compose`: like `do_compose`, but a slot filled
only on the left side is replaced by `a.invert_compose(slot_default)` at
override 0, a slot filled only on the right is copied, and a slot filled on
both sides becomes `a.invert_compose(b)` at override 0. -/
def do_invert_compose [DecidableEq α] (ops : AttribOps n α)
    (s other : RenderState n α) : RenderState n α :=
  return_new
    { filled_slots := fun k => s.filled_slots k || other.filled_slots k,
      attributes := fun k =>
        if s.filled_slots k || other.filled_slots k then
          let a := s.attributes k
          let b := other.attributes k
          match a.attrib, b.attrib with
          | none, _ => b
          | some xa, none => ⟨some (ops.invert_compose xa (ops.slot_default k)), 0⟩
          | some xa, some xb => ⟨some (ops.invert_compose xa xb), 0⟩
        else
          ⟨none, 0⟩ }

/-- `RenderState::set_attrib(attrib)` (the one-argument form): copy the
state, overwrite only the `_attrib` pointer of the attribute's slot (the
`_override` field keeps whatever the copy holds), set the slot's filled
bit, and pass the copy through `return_new`. -/
def set_attrib [DecidableEq α] (ops : AttribOps n α) (s : RenderState n α)
    (x : α) : RenderState n α :=
  let slot := ops.get_slot x
  return_new
    { attributes := fun k =>
        if k = slot then ⟨some x, (s.attributes k).override⟩ else s.attributes k,
      filled_slots := fun k => if k = slot then true else s.filled_slots k }

/-- Number of filled slots (`_filled_slots.get_num_on_bits()`). -/
def num_filled (s : RenderState n α) : Nat :=
  (List.finRange n).countP (fun k => s.filled_slots k)

/-- `RenderState::remove_attrib(slot)`: if the slot holds no attribute,
return `this` unchanged; if it is the last filled slot, return the canonical
empty state; otherwise copy, clear the slot, and intern the copy. -/
def remove_attrib [DecidableEq α] (s : RenderState n α) (k : Fin n) :
    RenderState n α :=
  if (s.attributes k).attrib = none then
    s
  else if num_filled s = 1 then
    emptyState n α
  else
    return_new
      { attributes := fun j => if j = k then ⟨none, 0⟩ else s.attributes j,
        filled_slots := fun j => if j = k then false else s.filled_slots j }

end RenderState

/-! ## Composition caches

The per-state maps `_composition_cache` and `_invert_composition_cache` are
modelled by one global association list: the entry stored under the key
`(s, t)` is the `Composition` record `s->_composition_cache[t]`, whose only
payload is the nullable `_result` pointer. -/

/-- The global view of all states' composition caches (forward or invert). -/
abbrev CompCache (n : Nat) (α : Type) :=
  List ((RenderState n α × RenderState n α) × Option (RenderState n α))

/-- `_composition_cache.find(other)` on state `a`: `some entry` on a hit. -/
def cacheFind [DecidableEq α] (c : CompCache n α) (a b : RenderState n α) :
    Option (Option (RenderState n α)) :=
  (c.find? (fun e => decide (e.1 = (a, b)))).map (fun e => e.2)

/-- Store `r` in the cache entry `a->_composition_cache[b]`, creating the
entry when absent. -/
def cacheStore [DecidableEq α] (c : CompCache n α) (a b : RenderState n α)
    (r : Option (RenderState n α)) : CompCache n α :=
  if (c.find? (fun e => decide (e.1 = (a, b)))).isSome then
    c.map (fun e => if e.1 = (a, b) then ((a, b), r) else e)
  else
    c ++ [((a, b), r)]

/-- Every non-null `_result` stored in the forward cache was produced by
`do_compose` on its key, which is how every entry is created in the source. -/
def cacheWF [DecidableEq α] (ops : AttribOps n α) (c : CompCache n α) : Prop :=
  ∀ e ∈ c, ∀ r, e.2 = some r → r = RenderState.do_compose ops e.1.1 e.1.2

/-- The invert-cache analogue of `cacheWF`. -/
def invertCacheWF [DecidableEq α] (ops : AttribOps n α) (c : CompCache n α) :
    Prop :=
  ∀ e ∈ c, ∀ r, e.2 = some r → r = RenderState.do_invert_compose ops e.1.1 e.1.2

namespace RenderState

variable {n : Nat} {α : Type}

/-- `RenderState::compose(other)`: empty operands short-circuit; with
`state_cache` false the result is computed directly and no cache is
consulted; otherwise a cache hit with a stored result returns it, a hit on
a paired empty entry computes and stores the result, and a miss computes
the result, stores it, and installs the paired empty entry on the other
operand.  The `cache_ref` refcount effects are outside this claim set and
are not modelled here. -/
def compose [DecidableEq α] (ops : AttribOps n α) (state_cache : Bool)
    (c : CompCache n α) (a b : RenderState n α) :
    RenderState n α × CompCache n α :=
  if a.is_empty then (b, c)
  else if b.is_empty then (a, c)
  else if !state_cache then (do_compose ops a b, c)
  else
    match cacheFind c a b with
    | some (some r) => (r, c)
    | some none =>
        let r := do_compose ops a b
        (r, cacheStore c a b (some r))
    | none =>
        let r := do_compose ops a b
        let c1 := cacheStore c a b (some r)
        let c2 := if b = a then c1 else cacheStore c1 b a none
        (r, c2)

/-- `RenderState::invert_compose(other)`: an empty left operand returns the
other state; `a->invert_compose(a)` returns the canonical empty state; with
`state_cache` false the result is computed directly with no cache access;
otherwise the invert cache is used exactly like the forward cache. -/
def invert_compose [DecidableEq α] (ops : AttribOps n α) (state_cache : Bool)
    (c : CompCache n α) (a b : RenderState n α) :
    RenderState n α × CompCache n α :=
  if a.is_empty then (b, c)
  else if b = a then (emptyState n α, c)
  else if !state_cache then (do_invert_compose ops a b, c)
  else
    match cacheFind c a b with
    | some (some r) => (r, c)
    | some none =>
        let r := do_invert_compose ops a b
        (r, cacheStore c a b (some r))
    | none =>
        let r := do_invert_compose ops a b
        let c1 := cacheStore c a b (some r)
        let c2 := if b = a then c1 else cacheStore c1 b a none
        (r, c2)

end RenderState

/-! ## The identity order and the interner -/

/-- Modelled from the spec: `RenderState::Attribute::compare_to` lives in
the inline header `renderState.I`, which is not part of the covered source.
Per the spec, the identity order "compares attribute entries slot-by-slot
using attribute-level value equality (not pointer)"; an entry is the pair
`(handle, override)`, so entries with value-equal attributes are further
ordered by override, and an absent attribute sorts before a present one. -/
def Attribute.cmp (cmp : α → α → Int) (x y : Attribute α) : Int :=
  match x.attrib, y.attrib with
  | none, none => 0
  | none, some _ => -1
  | some _, none => 1
  | some a, some b =>
      let c := cmp a b
      if c = 0 then x.override - y.override else c

/-- The lowest-on-bit loop of `RenderState::compare_to` over an explicit
slot list: the first slot in the union mask whose entries compare unequal
decides; if none does, the states compare equal. -/
def compareSlots (cmp : α → α → Int) (s t : RenderState n α) :
    List (Fin n) → Int
  | [] => 0
  | k :: ks =>
      if s.filled_slots k || t.filled_slots k then
        let c := Attribute.cmp cmp (s.attributes k) (t.attributes k)
        if c = 0 then compareSlots cmp s t ks else c
      else
        compareSlots cmp s t ks

/-- `RenderState::compare_to`: iterate the union of the two filled-slot
masks in ascending slot order; the first differing entry decides. -/
def RenderState.compare_to (cmp : α → α → Int) (s t : RenderState n α) : Int :=
  compareSlots cmp s t (List.finRange n)

/-- A heap object holding a `RenderState`: the `id` stands for the object's
address, so that pointer identity of two structurally-equal states is
observable in the model. -/
structure Obj (n : Nat) (α : Type) where
  id : Nat
  st : RenderState n α

instance {n : Nat} {α : Type} [DecidableEq α] : DecidableEq (Obj n α) :=
  fun s t =>
    if h : s.id = t.id ∧ s.st = t.st then
      isTrue (by cases s; cases t; simp_all)
    else
      isFalse (by intro he; cases he; simp_all)

/-- The global intern set `_states`, as the list of member objects. -/
abbrev InternTable (n : Nat) (α : Type) := List (Obj n α)

/-- `RenderState::return_unique`: with `state_cache` off the state is
returned untouched; a state already in the set (`_saved_entry != -1`)
returns itself; otherwise the set is searched by `compare_to` equality and
either the existing equivalent member is returned or the new state is
installed.  The attribute-pointer uniquification step and the
garbage-collection `cache_ref` are identities at the level of state values
and are not modelled. -/
def Intern.return_unique [DecidableEq α] (cmp : α → α → Int)
    (state_cache : Bool) (T : InternTable n α) (s : Obj n α) :
    Obj n α × InternTable n α :=
  if !state_cache then (s, T)
  else if T.any (fun o => o.id == s.id) then (s, T)
  else
    match T.find? (fun o => decide (RenderState.compare_to cmp s.st o.st = 0)) with
    | some o => (o, T)
    | none => (s, T ++ [s])

/-! ## The reference-count contract of `RenderState::unref` -/

/-- The observable outcome of one `RenderState::unref()` call: the boolean
return value, the new reference count, and whether `release_new()`,
`remove_cache_pointers()` and `detect_and_break_cycles()` were invoked. -/
structure UnrefOutcome where
  returned : Bool
  ref_count : Nat
  released_from_pool : Bool
  cache_pointers_removed : Bool
  ran_cycle_detect : Bool
deriving DecidableEq, Repr

/-- `RenderState::unref()`, with its side effects reified as outcome flags:
if `garbage_collect_states` is set or `state_cache` is clear, the pointer
unrefs normally; otherwise, under the states lock, a drop from
`cache_ref_count + 1` to `cache_ref_count` (with a nonzero cache count and
`auto_break_cycles` and `uniquify_states` set) first runs cycle detection,
and a drop to zero calls `release_new()` and `remove_cache_pointers()`. -/
def RenderState.unref (garbage_collect_states state_cache auto_break_cycles
    uniquify_states : Bool) (ref_count cache_ref_count : Nat) : UnrefOutcome :=
  if garbage_collect_states || !state_cache then
    { returned := ref_count - 1 != 0, ref_count := ref_count - 1,
      released_from_pool := false, cache_pointers_removed := false,
      ran_cycle_detect := false }
  else
    let cyc := auto_break_cycles && uniquify_states &&
               decide (0 < cache_ref_count) &&
               decide (ref_count = cache_ref_count + 1)
    if ref_count - 1 != 0 then
      { returned := true, ref_count := ref_count - 1,
        released_from_pool := false, cache_pointers_removed := false,
        ran_cycle_detect := cyc }
    else
      { returned := false, ref_count := ref_count - 1,
        released_from_pool := true, cache_pointers_removed := true,
        ran_cycle_detect := cyc }

end Panda

namespace Prc

/-! ## Config page manager (`configPageManager.cxx`)

The `Filename` class and `ExecutionEnvironment` are external to the covered
source; a filename is modelled as its list of path components, so
`get_dirname` drops the last component and the filesystem root is the empty
list (its own dirname).  `GlobPattern::matches` is modelled as an abstract
predicate on filenames. -/

/-- A filename, as its path components; `[]` is the filesystem root. -/
abbrev Path := List String

/-- A glob pattern, as its `matches` predicate. -/
abbrev Glob := String → Bool

/-- The filesystem as `scan_up_from` observes it: `some listing` when
`is_directory()` holds and `scan_directory()` succeeds, `none` otherwise. -/
abbrev FileSystem := Path → Option (List String)

/-- The body of the per-directory test in `scan_up_from`: some file of the
directory matches one of the `_prc_patterns` or one of the
`_prc_executable_patterns`. -/
def dirHasMatch (fs : FileSystem) (readPats exePats : List Glob)
    (d : Path) : Bool :=
  match fs d with
  | some files =>
      files.any (fun f => readPats.any (fun g => g f) || exePats.any (fun g => g f))
  | none => false

/-- `ConfigPageManager::scan_up_from`: test `dir/suffix`; on failure stop at
the root (a directory equal to its own dirname), else recurse on the
parent. -/
def scan_up_from (fs : FileSystem) (readPats exePats : List Glob)
    (dir suffix : Path) : Option Path :=
  if dirHasMatch fs readPats exePats (dir ++ suffix) then some (dir ++ suffix)
  else if dir.dropLast = dir then none
  else scan_up_from fs readPats exePats dir.dropLast suffix
termination_by dir.length
decreasing_by
  simp only [List.length_dropLast]
  rcases dir with _ | ⟨x, xs⟩
  · simp_all
  · simp [Nat.sub_lt_iff_lt_add]

/-- The marker component that requests upward resolution. -/
def autoMark : String := "<auto>"

/-- `ConfigPageManager::scan_auto_prc_dir`: a directory whose name starts
with the `<auto>` marker is resolved by scanning upward from the dtool
library's directory and then from `MAIN_DIR`; `none` models the `false`
return, on which the caller omits the directory from the search path.  A
directory without the marker stands unchanged. -/
def scan_auto_prc_dir (fs : FileSystem) (readPats exePats : List Glob)
    (dtoolDir mainDir : Path) (prc_dir : Path) : Option Path :=
  if prc_dir.head? = some autoMark then
    match scan_up_from fs readPats exePats dtoolDir prc_dir.tail with
    | some found => some found
    | none =>
        match scan_up_from fs readPats exePats mainDir prc_dir.tail with
        | some found => some found
        | none => none
  else
    some prc_dir

/-- The two page lists and bookkeeping of `ConfigPageManager`; pages are
identified by their addresses, modelled as naturals. -/
structure ConfigPageManager where
  implicit_pages : List Nat
  explicit_pages : List Nat
  pages_sorted : Bool
  next_page_seq : Nat
deriving DecidableEq, Repr

/-- The observable outcome of `delete_explicit_page`: the boolean return,
the manager afterwards, and whether `delete page` and `invalidate_cache()`
ran. -/
structure DeletePageOutcome where
  result : Bool
  mgr : ConfigPageManager
  page_destroyed : Bool
  cache_invalidated : Bool
deriving DecidableEq, Repr

/-- The erase loop of `delete_explicit_page`: remove the first element equal
to `page`, or `none` when no element matches. -/
def eraseFirst (page : Nat) : List Nat → Option (List Nat)
  | [] => none
  | p :: ps => if p = page then some ps else (eraseFirst page ps).map (p :: ·)

/-- `ConfigPageManager::delete_explicit_page(page)`: scan the explicit list
for the pointer; when found, erase it, destroy the page, invalidate the
variable cache and return true; otherwise return false with nothing
changed. -/
def ConfigPageManager.delete_explicit_page (m : ConfigPageManager)
    (page : Nat) : DeletePageOutcome :=
  match eraseFirst page m.explicit_pages with
  | some ps =>
      { result := true,
        mgr := { m with explicit_pages := ps },
        page_destroyed := true,
        cache_invalidated := true }
  | none =>
      { result := false, mgr := m,
        page_destroyed := false, cache_invalidated := false }

end Prc

/-! ## Concrete instances used by counterexamples and witnesses -/

namespace Panda

/-- A small concrete attribute algebra on integers: composition adds,
inverted composition subtracts, no attribute opts into
`lower_attrib_can_override`, every attribute registers slot 1, the identity
default is `0`, and values compare by subtraction. -/
def ops0 : AttribOps 3 Int :=
  { compose := fun a b => a + b
    invert_compose := fun a b => b - a
    lower_attrib_can_override := fun _ => false
    get_slot := fun _ => ⟨1, by omega⟩
    slot_default := fun _ => 0
    compare_to := fun a b => a - b }

/-- Slot 1 of the three-slot concrete registry. -/
def slot1 : Fin 3 := ⟨1, by omega⟩

/-- Slot 2 of the three-slot concrete registry. -/
def slot2 : Fin 3 := ⟨2, by omega⟩

/-- A concrete state holding exactly one entry, at the given slot. -/
def singleState (k : Fin 3) (e : Attribute Int) : RenderState 3 Int :=
  { attributes := fun j => if j = k then e else ⟨none, 0⟩,
    filled_slots := fun j => decide (j = k) }

end Panda

/-! ## Theorems for the claims -/

namespace Panda

/-- Claim C2, counterexample: in `do_compose`, with both sides filled at
slot 1, differing overrides, the higher override on the right operand and
the lower attribute not opting into `lower_attrib_can_override`, the
result entry is the attribute composition at the right override — not an
identity copy of the higher-override side's entry, contrary to the claim. -/
theorem do_compose_higher_right_composes :
    (singleState slot1 ⟨some 1, 0⟩).filled_slots slot1 = true ∧
    (singleState slot1 ⟨some 2, 1⟩).filled_slots slot1 = true ∧
    ((singleState slot1 ⟨some 1, 0⟩).attributes slot1).override <
      ((singleState slot1 ⟨some 2, 1⟩).attributes slot1).override ∧
    ops0.lower_attrib_can_override 1 = false ∧
    (RenderState.do_compose ops0 (singleState slot1 ⟨some 1, 0⟩)
        (singleState slot1 ⟨some 2, 1⟩)).attributes slot1 = ⟨some 3, 1⟩ ∧
    (⟨some 3, 1⟩ : Attribute Int) ≠
      (singleState slot1 ⟨some 2, 1⟩).attributes slot1 := by
  decide

/-- Claim C2, amended: for a slot filled on both sides with differing
overrides, `do_compose` copies the left entry identically when the left
override is higher; when the right override is higher, the right entry wins
outright if the left attribute opts into `lower_attrib_can_override`, and
otherwise the result is the attribute composition `a.compose(b)` stored at
the right operand's override. -/
theorem do_compose_override_cases {n : Nat} {α : Type} [DecidableEq α]
    (ops : AttribOps n α) (a b : RenderState n α) (k : Fin n) (xa xb : α)
    (hk : k.val ≠ 0)
    (hfa : a.filled_slots k = true) (hfb : b.filled_slots k = true)
    (ha : (a.attributes k).attrib = some xa)
    (hb : (b.attributes k).attrib = some xb) :
    ((b.attributes k).override < (a.attributes k).override →
        (RenderState.do_compose ops a b).attributes k = a.attributes k) ∧
    ((a.attributes k).override < (b.attributes k).override →
      ops.lower_attrib_can_override xa = true →
        (RenderState.do_compose ops a b).attributes k = b.attributes k) ∧
    ((a.attributes k).override < (b.attributes k).override →
      ops.lower_attrib_can_override xa = false →
        (RenderState.do_compose ops a b).attributes k =
          ⟨some (ops.compose xa xb), (b.attributes k).override⟩) := by
  refine ⟨fun hlt => ?_, fun hlt hopt => ?_, fun hlt hopt => ?_⟩ <;>
    simp only [RenderState.do_compose, RenderState.return_new, hk, if_false,
      hfa, hfb, Bool.true_or, if_true, ha, hb] <;>
    simp_all [not_lt_of_lt hlt, not_lt.mpr (le_of_lt hlt)]

/-- Claim C2, amended, witness at the concrete instance. -/
theorem do_compose_override_cases_witness :
    ((singleState slot1 ⟨some 2, 1⟩).attributes slot1).override <
      ((singleState slot1 ⟨some 1, 5⟩).attributes slot1).override ∧
    (RenderState.do_compose ops0 (singleState slot1 ⟨some 1, 5⟩)
        (singleState slot1 ⟨some 2, 1⟩)).attributes slot1 =
      (singleState slot1 ⟨some 1, 5⟩).attributes slot1 :=
  ⟨by decide,
    (do_compose_override_cases ops0 (singleState slot1 ⟨some 1, 5⟩)
      (singleState slot1 ⟨some 2, 1⟩) slot1 1 2 (by decide) (by decide)
      (by decide) (by decide) (by decide)).1 (by decide)⟩

/-- Claim C3, counterexample: at a slot where only the right side holds an
entry, `do_invert_compose` copies the right entry unchanged, keeping its
override (3 here) — it does not store anything at override 0, contrary to
the claim. -/
theorem do_invert_compose_right_only_keeps_override :
    ((singleState slot2 ⟨some 7, 0⟩).attributes slot1).attrib = none ∧
    (singleState slot1 ⟨some 5, 3⟩).filled_slots slot1 = true ∧
    ((RenderState.do_invert_compose ops0 (singleState slot2 ⟨some 7, 0⟩)
        (singleState slot1 ⟨some 5, 3⟩)).attributes slot1).override ≠ 0 := by
  decide

/-- Claim C3, amended: at a slot where only the right side holds an entry,
`do_invert_compose` copies the right entry unchanged; at a slot where only
the left side holds an entry, it stores
`a.invert_compose(slot_default)` at override 0. -/
theorem do_invert_compose_one_side {n : Nat} {α : Type} [DecidableEq α]
    (ops : AttribOps n α) (a b : RenderState n α) (k : Fin n)
    (hk : k.val ≠ 0) :
    ((a.attributes k).attrib = none → b.filled_slots k = true →
        (RenderState.do_invert_compose ops a b).attributes k =
          b.attributes k) ∧
    (∀ xa, (a.attributes k).attrib = some xa →
      (b.attributes k).attrib = none → a.filled_slots k = true →
        (RenderState.do_invert_compose ops a b).attributes k =
          ⟨some (ops.invert_compose xa (ops.slot_default k)), 0⟩) := by
  constructor
  · intro ha hfb
    simp only [RenderState.do_invert_compose, RenderState.return_new, hk,
      if_false, hfb, Bool.or_true, if_true, ha]
  · intro xa ha hb hfa
    simp only [RenderState.do_invert_compose, RenderState.return_new, hk,
      if_false, hfa, Bool.true_or, if_true, ha, hb]

/-- Claim C3, amended, witness at the concrete instance. -/
theorem do_invert_compose_one_side_witness :
    (RenderState.do_invert_compose ops0 (singleState slot2 ⟨some 7, 0⟩)
        (singleState slot1 ⟨some 5, 3⟩)).attributes slot1 =
      (singleState slot1 ⟨some 5, 3⟩).attributes slot1 :=
  (do_invert_compose_one_side ops0 (singleState slot2 ⟨some 7, 0⟩)
      (singleState slot1 ⟨some 5, 3⟩) slot1 (by decide)).1 (by decide) (by decide)

/-- Helper: the freshly-constructed state is empty. -/
theorem emptyState_is_empty {n : Nat} {α : Type} [DecidableEq α] :
    (RenderState.emptyState n α).is_empty = true := by
  simp [RenderState.is_empty, RenderState.emptyState]

/-- Helper: a well-formed state with a zero filled-slot mask is the empty
state value. -/
theorem wf_is_empty_eq {n : Nat} {α : Type} [DecidableEq α]
    {s : RenderState n α} (hwf : s.wf) (he : s.is_empty = true) :
    s = RenderState.emptyState n α := by
  have hf : ∀ k, s.filled_slots k = false := by
    simpa [RenderState.is_empty] using he
  cases s with
  | mk attributes filled_slots =>
      simp only [RenderState.emptyState, RenderState.mk.injEq]
      constructor
      · funext k
        exact (hwf k).2 (hf k)
      · funext k
        exact hf k

/-- Claim C4: the canonical empty state is a two-sided identity of
`compose`, a state invert-composed with itself gives the empty state, and
the empty state invert-composed with any state gives that state — for any
cache and either setting of the state-cache flag. -/
theorem compose_empty_identities {n : Nat} {α : Type} [DecidableEq α]
    (ops : AttribOps n α) (flag : Bool) (c : CompCache n α)
    (s t : RenderState n α) (hwf : s.wf) :
    (RenderState.compose ops flag c (RenderState.emptyState n α) s).1 = s ∧
    (RenderState.compose ops flag c s (RenderState.emptyState n α)).1 = s ∧
    (RenderState.invert_compose ops flag c s s).1 =
      RenderState.emptyState n α ∧
    (RenderState.invert_compose ops flag c (RenderState.emptyState n α) t).1
      = t := by
  refine ⟨?_, ?_, ?_, ?_⟩
  · simp [RenderState.compose, emptyState_is_empty]
  · by_cases he : s.is_empty
    · simp [RenderState.compose, he, wf_is_empty_eq hwf he,
        emptyState_is_empty]
    · simp [RenderState.compose, he, emptyState_is_empty]
  · by_cases he : s.is_empty
    · simp [RenderState.invert_compose, he, wf_is_empty_eq hwf he,
        emptyState_is_empty]
    · simp [RenderState.invert_compose, he]
  · simp [RenderState.invert_compose, emptyState_is_empty]

/-- Claim C4, witness at the concrete instance. -/
theorem compose_empty_identities_witness :
    (RenderState.compose ops0 true [] (RenderState.emptyState 3 Int)
        (singleState slot2 ⟨some 7, 0⟩)).1 = singleState slot2 ⟨some 7, 0⟩ ∧
    (RenderState.invert_compose ops0 true [] (singleState slot2 ⟨some 7, 0⟩)
        (singleState slot2 ⟨some 7, 0⟩)).1 = RenderState.emptyState 3 Int :=
  ⟨(compose_empty_identities ops0 true [] (singleState slot2 ⟨some 7, 0⟩)
      (singleState slot2 ⟨some 7, 0⟩) (by decide)).1,
   (compose_empty_identities ops0 true [] (singleState slot2 ⟨some 7, 0⟩)
      (singleState slot2 ⟨some 7, 0⟩) (by decide)).2.2.1⟩

/-- Helper: on a well-formed forward cache, a hit with a stored result
yields exactly `do_compose` of the looked-up pair. -/
theorem cacheFind_wf_eq {n : Nat} {α : Type} [DecidableEq α]
    {ops : AttribOps n α} {c : CompCache n α} {a b r : RenderState n α}
    (hc : cacheWF ops c) (h : cacheFind c a b = some (some r)) :
    r = RenderState.do_compose ops a b := by
  unfold cacheFind at h
  cases hfind : c.find? (fun e => decide (e.1 = (a, b))) with
  | none => rw [hfind] at h; simp at h
  | some e =>
      rw [hfind] at h
      simp only [Option.map_some'] at h
      have hp := List.find?_some hfind
      have hm := List.mem_of_find?_eq_some hfind
      have hkey : e.1 = (a, b) := by simpa using hp
      have := hc e hm r (by simpa using h)
      rw [this, hkey]

/-- Helper: the invert-cache analogue of `cacheFind_wf_eq`. -/
theorem cacheFind_invert_wf_eq {n : Nat} {α : Type} [DecidableEq α]
    {ops : AttribOps n α} {c : CompCache n α} {a b r : RenderState n α}
    (hc : invertCacheWF ops c) (h : cacheFind c a b = some (some r)) :
    r = RenderState.do_invert_compose ops a b := by
  unfold cacheFind at h
  cases hfind : c.find? (fun e => decide (e.1 = (a, b))) with
  | none => rw [hfind] at h; simp at h
  | some e =>
      rw [hfind] at h
      simp only [Option.map_some'] at h
      have hp := List.find?_some hfind
      have hm := List.mem_of_find?_eq_some hfind
      have hkey : e.1 = (a, b) := by simpa using hp
      have := hc e hm r (by simpa using h)
      rw [this, hkey]

/-- Claim C5: with `state_cache` disabled, `compose` and `invert_compose`
return exactly the results they return with the cache enabled (for any
well-formed cache), the cache is left unmodified, and the result is
independent of the cache contents (no cache is read). -/
theorem state_cache_noop {n : Nat} {α : Type} [DecidableEq α]
    (ops : AttribOps n α) (c ic : CompCache n α) (a b : RenderState n α)
    (hc : cacheWF ops c) (hic : invertCacheWF ops ic) :
    ((RenderState.compose ops false c a b).1 =
        (RenderState.compose ops true c a b).1 ∧
      (RenderState.compose ops false c a b).2 = c ∧
      (∀ c2, (RenderState.compose ops false c2 a b).1 =
        (RenderState.compose ops false c a b).1)) ∧
    ((RenderState.invert_compose ops false ic a b).1 =
        (RenderState.invert_compose ops true ic a b).1 ∧
      (RenderState.invert_compose ops false ic a b).2 = ic ∧
      (∀ ic2, (RenderState.invert_compose ops false ic2 a b).1 =
        (RenderState.invert_compose ops false ic a b).1)) := by
  constructor
  · refine ⟨?_, ?_, ?_⟩
    · by_cases hae : a.is_empty <;> by_cases hbe : b.is_empty <;>
        simp only [RenderState.compose, hae, hbe, if_true, if_false,
          Bool.not_true, Bool.not_false] <;> try rfl
      rcases hf : cacheFind c a b with _ | _ | r <;> simp [hf]
      exact (cacheFind_wf_eq hc hf).symm
    · by_cases hae : a.is_empty <;> by_cases hbe : b.is_empty <;>
        simp [RenderState.compose, hae, hbe]
    · intro c2
      by_cases hae : a.is_empty <;> by_cases hbe : b.is_empty <;>
        simp [RenderState.compose, hae, hbe]
  · refine ⟨?_, ?_, ?_⟩
    · by_cases hae : a.is_empty <;> by_cases hba : b = a <;>
        simp only [RenderState.invert_compose, hae, hba, if_true, if_false,
          Bool.not_true, Bool.not_false] <;> try rfl
      rcases hf : cacheFind ic a b with _ | _ | r <;> simp [hf]
      exact (cacheFind_invert_wf_eq hic hf).symm
    · by_cases hae : a.is_empty <;> by_cases hba : b = a <;>
        simp [RenderState.invert_compose, hae, hba]
    · intro ic2
      by_cases hae : a.is_empty <;> by_cases hba : b = a <;>
        simp [RenderState.invert_compose, hae, hba]

/-- Claim C5, witness at the concrete instance (empty caches are trivially
well-formed). -/
theorem state_cache_noop_witness :
    (RenderState.compose ops0 false [] (singleState slot1 ⟨some 1, 0⟩)
        (singleState slot1 ⟨some 2, 1⟩)).1 =
      (RenderState.compose ops0 true [] (singleState slot1 ⟨some 1, 0⟩)
        (singleState slot1 ⟨some 2, 1⟩)).1 ∧
    (RenderState.compose ops0 false [] (singleState slot1 ⟨some 1, 0⟩)
        (singleState slot1 ⟨some 2, 1⟩)).2 = [] :=
  ⟨(state_cache_noop ops0 [] [] (singleState slot1 ⟨some 1, 0⟩)
      (singleState slot1 ⟨some 2, 1⟩) (by simp [Panda.cacheWF])
      (by simp [Panda.invertCacheWF])).1.1,
   (state_cache_noop ops0 [] [] (singleState slot1 ⟨some 1, 0⟩)
      (singleState slot1 ⟨some 2, 1⟩) (by simp [Panda.cacheWF])
      (by simp [Panda.invertCacheWF])).1.2.1⟩

/-- Claim C6, counterexample: with garbage_collect_states enabled (and
state_cache enabled), an `unref()` that drops the reference count from 1 to
0 takes the ordinary refcount path: the state is neither removed from the
intern table nor are its cache pointers unlinked, contrary to the claim. -/
theorem unref_gc_takes_plain_path :
    (RenderState.unref true true true true 1 0).ref_count = 0 ∧
    (RenderState.unref true true true true 1 0).released_from_pool = false ∧
    (RenderState.unref true true true true 1 0).cache_pointers_removed
      = false := by
  decide

/-- Claim C6, amended: only when state_cache is enabled and
garbage_collect_states is disabled does an `unref()` that drops the count
to zero remove the state from the intern table and unlink its cache
pointers before release; when garbage_collect_states is enabled or
state_cache is disabled, `unref()` is an ordinary decrement that never
touches the interner or the caches, and removal is deferred to the
garbage-collection sweep. -/
theorem unref_spec (gc sc abc uniq : Bool) (rc crc : Nat) :
    (gc = false → sc = true → rc = 1 →
      (RenderState.unref gc sc abc uniq rc crc).released_from_pool = true ∧
      (RenderState.unref gc sc abc uniq rc crc).cache_pointers_removed
        = true ∧
      (RenderState.unref gc sc abc uniq rc crc).returned = false ∧
      (RenderState.unref gc sc abc uniq rc crc).ref_count = 0) ∧
    (gc = true ∨ sc = false →
      (RenderState.unref gc sc abc uniq rc crc).released_from_pool = false ∧
      (RenderState.unref gc sc abc uniq rc crc).cache_pointers_removed
        = false ∧
      (RenderState.unref gc sc abc uniq rc crc).ref_count = rc - 1) := by
  constructor
  · rintro rfl rfl rfl
    simp [RenderState.unref]
  · rintro (rfl | rfl) <;> simp [RenderState.unref]

/-- Claim C6, amended, witness at concrete flag settings and counts. -/
theorem unref_spec_witness :
    (RenderState.unref false true true true 1 1).released_from_pool = true ∧
    (RenderState.unref false true true true 1 1).cache_pointers_removed
      = true ∧
    (RenderState.unref false true true true 1 1).returned = false ∧
    (RenderState.unref false true true true 1 1).ref_count = 0 :=
  (unref_spec false true true true 1 1).1 rfl rfl rfl

/-- Helper: the entry-level order compares to zero exactly when both
attributes are absent, or both are present with zero-comparing values and
equal overrides. -/
theorem Attribute.cmp_eq_zero_iff (cmp : α → α → Int) (x y : Attribute α) :
    Attribute.cmp cmp x y = 0 ↔
      ((x.attrib = none ∧ y.attrib = none) ∨
       (∃ a b, x.attrib = some a ∧ y.attrib = some b ∧ cmp a b = 0 ∧
         x.override = y.override)) := by
  obtain ⟨xa, xo⟩ := x
  obtain ⟨ya, yo⟩ := y
  cases xa <;> cases ya <;> simp [Attribute.cmp]
  rename_i a b
  by_cases h : cmp a b = 0 <;> simp [h, sub_eq_zero]

/-- Helper: the state-level loop compares to zero exactly when every listed
slot in the union mask has zero-comparing entries. -/
theorem compareSlots_eq_zero_iff (cmp : α → α → Int) (s t : RenderState n α)
    (L : List (Fin n)) :
    compareSlots cmp s t L = 0 ↔
      ∀ k ∈ L, (s.filled_slots k || t.filled_slots k) = true →
        Attribute.cmp cmp (s.attributes k) (t.attributes k) = 0 := by
  induction L with
  | nil => simp [compareSlots]
  | cons k ks ih =>
      by_cases hg : (s.filled_slots k || t.filled_slots k) = true
      · by_cases hc : Attribute.cmp cmp (s.attributes k) (t.attributes k) = 0
        · simp only [compareSlots, hg, if_true, hc, if_pos rfl]
          rw [ih]
          constructor
          · intro h k2 hk2 hg2
            rcases List.mem_cons.mp hk2 with rfl | hk2
            · exact hc
            · exact h k2 hk2 hg2
          · intro h k2 hk2 hg2
            exact h k2 (List.mem_cons_of_mem _ hk2) hg2
        · simp only [compareSlots, hg, if_true, if_neg hc]
          constructor
          · intro h
            exact absurd h hc
          · intro h
            exact absurd (h k (List.mem_cons_self _ _) hg) hc
      · rw [Bool.not_eq_true] at hg
        simp only [compareSlots, hg, Bool.false_eq_true, if_false]
        rw [ih]
        constructor
        · intro h k2 hk2 hg2
          rcases List.mem_cons.mp hk2 with rfl | hk2
          · rw [hg] at hg2
            exact absurd hg2 (Bool.false_ne_true)
          · exact h k2 hk2 hg2
        · intro h k2 hk2 hg2
          exact h k2 (List.mem_cons_of_mem _ hk2) hg2

/-- Helper: `compare_to` is zero exactly when every slot of the union mask
has zero-comparing entries. -/
theorem compare_to_eq_zero_iff (cmp : α → α → Int) (s t : RenderState n α) :
    RenderState.compare_to cmp s t = 0 ↔
      ∀ k, (s.filled_slots k || t.filled_slots k) = true →
        Attribute.cmp cmp (s.attributes k) (t.attributes k) = 0 := by
  rw [RenderState.compare_to, compareSlots_eq_zero_iff]
  simp [List.mem_finRange]

/-- Helper: `compare_to` is reflexive at zero when the attribute order is. -/
theorem compare_to_self (cmp : α → α → Int) (hrefl : ∀ x, cmp x x = 0)
    (s : RenderState n α) : RenderState.compare_to cmp s s = 0 := by
  rw [compare_to_eq_zero_iff]
  intro k _
  rw [Attribute.cmp_eq_zero_iff]
  cases hx : (s.attributes k).attrib with
  | none => exact Or.inl ⟨rfl, rfl⟩
  | some a => exact Or.inr ⟨a, a, rfl, rfl, hrefl a, rfl⟩

/-- Helper: zero-comparison is symmetric when the attribute order is. -/
theorem compare_to_symm_zero (cmp : α → α → Int)
    (hsymm : ∀ x y, cmp x y = 0 → cmp y x = 0) {s t : RenderState n α}
    (h : RenderState.compare_to cmp s t = 0) :
    RenderState.compare_to cmp t s = 0 := by
  rw [compare_to_eq_zero_iff] at h ⊢
  intro k hg
  have hg' : (s.filled_slots k || t.filled_slots k) = true := by
    rw [Bool.or_comm]; exact hg
  have hz := h k hg'
  rw [Attribute.cmp_eq_zero_iff] at hz ⊢
  rcases hz with ⟨h1, h2⟩ | ⟨a, b, hxa, hyb, hc, ho⟩
  · exact Or.inl ⟨h2, h1⟩
  · exact Or.inr ⟨b, a, hyb, hxa, hsymm a b hc, ho.symm⟩

/-- Helper: two well-formed states that compare to zero have identical
filled-slot masks. -/
theorem compare_to_zero_filled_eq (cmp : α → α → Int)
    {s t : RenderState n α} (hs : s.wf) (ht : t.wf)
    (h : RenderState.compare_to cmp s t = 0) :
    ∀ k, s.filled_slots k = t.filled_slots k := by
  intro k
  by_cases hsf : s.filled_slots k = true <;>
    by_cases htf : t.filled_slots k = true
  · rw [hsf, htf]
  · exfalso
    have hg : (s.filled_slots k || t.filled_slots k) = true := by simp [hsf]
    have hz := (compare_to_eq_zero_iff cmp s t).mp h k hg
    rw [Attribute.cmp_eq_zero_iff] at hz
    have hsa := (hs k).1 hsf
    have hta := (ht k).2 (Bool.not_eq_true _ ▸ htf)
    rcases hz with ⟨h1, _⟩ | ⟨a, b, _, hb, _, _⟩
    · exact hsa h1
    · rw [hta] at hb; simp at hb
  · exfalso
    have hg : (s.filled_slots k || t.filled_slots k) = true := by simp [htf]
    have hz := (compare_to_eq_zero_iff cmp s t).mp h k hg
    rw [Attribute.cmp_eq_zero_iff] at hz
    have hta := (ht k).1 htf
    have hsa := (hs k).2 (Bool.not_eq_true _ ▸ hsf)
    rcases hz with ⟨_, h2⟩ | ⟨a, b, ha, _, _, _⟩
    · exact hta h2
    · rw [hsa] at ha; simp at ha
  · rw [Bool.not_eq_true] at hsf htf; rw [hsf, htf]

/-- Helper: zero-comparison is transitive on well-formed states when the
attribute order is. -/
theorem compare_to_trans_zero (cmp : α → α → Int)
    (htrans : ∀ x y z, cmp x y = 0 → cmp y z = 0 → cmp x z = 0)
    {s t u : RenderState n α} (hs : s.wf) (ht : t.wf) (hu : u.wf)
    (h1 : RenderState.compare_to cmp s t = 0)
    (h2 : RenderState.compare_to cmp t u = 0) :
    RenderState.compare_to cmp s u = 0 := by
  have hf1 := compare_to_zero_filled_eq cmp hs ht h1
  have hf2 := compare_to_zero_filled_eq cmp ht hu h2
  rw [compare_to_eq_zero_iff] at h1 h2 ⊢
  intro k hg
  have hsk : s.filled_slots k = true := by
    rcases Bool.or_eq_true_iff.mp hg with h | h
    · exact h
    · rw [hf1 k, hf2 k]
      exact h
  have htk : t.filled_slots k = true := by
    rw [← hf1 k]
    exact hsk
  have hg1 : (s.filled_slots k || t.filled_slots k) = true := by simp [hsk]
  have hg2 : (t.filled_slots k || u.filled_slots k) = true := by simp [htk]
  have e1 := h1 k hg1
  have e2 := h2 k hg2
  rw [Attribute.cmp_eq_zero_iff] at e1 e2 ⊢
  rcases e1 with ⟨ha1, ht1⟩ | ⟨x, y, hx, hy, hc1, ho1⟩
  · rcases e2 with ⟨_, hu2⟩ | ⟨y2, z, hy2, _, _, _⟩
    · exact Or.inl ⟨ha1, hu2⟩
    · rw [ht1] at hy2; simp at hy2
  · rcases e2 with ⟨ht2, _⟩ | ⟨y2, z, hy2, hz, hc2, ho2⟩
    · rw [ht2] at hy; simp at hy
    · rw [hy] at hy2
      injection hy2 with hyy
      subst hyy
      exact Or.inr ⟨x, z, hx, hz, htrans x y z hc1 hc2, ho1.trans ho2⟩

/-- Helper: `find?` only depends on the predicate's values on the list. -/
theorem find?_congr_on {β : Type} (p q : β → Bool) :
    ∀ l : List β, (∀ x ∈ l, p x = q x) → l.find? p = l.find? q := by
  intro l
  induction l with
  | nil => intro _; rfl
  | cons x xs ih =>
      intro h
      have hx := h x (by simp)
      rw [List.find?_cons, List.find?_cons, ← hx]
      cases hp : p x
      · exact ih (fun y hy => h y (List.mem_cons_of_mem _ hy))
      · rfl

/-- Helper: `return_unique` on a fresh state whose equivalence class has a
member in the table returns that member and leaves the table unchanged. -/
theorem return_unique_fresh_found {n : Nat} {α : Type} [DecidableEq α]
    (cmp : α → α → Int) (T : InternTable n α) (s o : Obj n α)
    (hm : T.any (fun x => x.id == s.id) = false)
    (hf : T.find? (fun x =>
      decide (RenderState.compare_to cmp s.st x.st = 0)) = some o) :
    Intern.return_unique cmp true T s = (o, T) := by
  simp [Intern.return_unique, hm, hf]

/-- Helper: `return_unique` on a fresh state with no equivalent member in
the table installs the state at the end of the table and returns it. -/
theorem return_unique_fresh_new {n : Nat} {α : Type} [DecidableEq α]
    (cmp : α → α → Int) (T : InternTable n α) (s : Obj n α)
    (hm : T.any (fun x => x.id == s.id) = false)
    (hf : T.find? (fun x =>
      decide (RenderState.compare_to cmp s.st x.st = 0)) = none) :
    Intern.return_unique cmp true T s = (s, T ++ [s]) := by
  simp [Intern.return_unique, hm, hf]

/-- Claim C1: for two fresh, well-formed states interned (with the state
cache enabled) into a table of well-formed states, `compare_to` returns
zero on the pair exactly when the interner hands back the same canonical
object — provided the external attribute comparison is reflexive,
symmetric and transitive at zero. -/
theorem return_unique_structural_uniqueness {n : Nat} {α : Type}
    [DecidableEq α] (cmp : α → α → Int)
    (hrefl : ∀ x, cmp x x = 0)
    (hsymm : ∀ x y, cmp x y = 0 → cmp y x = 0)
    (htrans : ∀ x y z, cmp x y = 0 → cmp y z = 0 → cmp x z = 0)
    (T : InternTable n α) (a b : Obj n α)
    (hT : ∀ o ∈ T, o.st.wf) (ha : a.st.wf) (hb : b.st.wf)
    (hma : T.any (fun o => o.id == a.id) = false)
    (hmb : (Intern.return_unique cmp true T a).2.any
      (fun o => o.id == b.id) = false) :
    RenderState.compare_to cmp a.st b.st = 0 ↔
      (Intern.return_unique cmp true T a).1 =
        (Intern.return_unique cmp true (Intern.return_unique cmp true T a).2
          b).1 := by
  rcases hfa : T.find? (fun o =>
      decide (RenderState.compare_to cmp a.st o.st = 0)) with _ | y
  -- Case: `a` installs fresh (no equivalent member in the table).
  · rw [return_unique_fresh_new cmp T a hma hfa] at hmb ⊢
    simp only at hmb ⊢
    have hnoneT : ∀ o ∈ T,
        ¬ (decide (RenderState.compare_to cmp a.st o.st = 0)) = true :=
      List.find?_eq_none.mp hfa
    constructor
    · intro hab
      have hfbT : T.find? (fun o =>
          decide (RenderState.compare_to cmp b.st o.st = 0)) = none := by
        rw [List.find?_eq_none]
        intro o ho hbo
        apply hnoneT o ho
        simp only [decide_eq_true_eq] at hbo ⊢
        exact compare_to_trans_zero cmp htrans ha hb (hT o ho) hab hbo
      have hba0 : RenderState.compare_to cmp b.st a.st = 0 :=
        compare_to_symm_zero cmp hsymm hab
      have hfba : List.find? (fun o : Obj n α =>
          decide (RenderState.compare_to cmp b.st o.st = 0)) [a] = some a := by
        simp [List.find?, hba0]
      have hfball : (T ++ [a]).find? (fun o =>
          decide (RenderState.compare_to cmp b.st o.st = 0)) = some a := by
        rw [List.find?_append, hfbT, Option.none_or, hfba]
      rw [return_unique_fresh_found cmp (T ++ [a]) b a hmb hfball]
    · intro heq
      rcases hfb : (T ++ [a]).find? (fun o =>
          decide (RenderState.compare_to cmp b.st o.st = 0)) with _ | y2
      · rw [return_unique_fresh_new cmp (T ++ [a]) b hmb hfb] at heq
        simp only at heq
        rw [heq]
        exact compare_to_self cmp hrefl b.st
      · rw [return_unique_fresh_found cmp (T ++ [a]) b y2 hmb hfb] at heq
        simp only at heq
        have hby2 : RenderState.compare_to cmp b.st y2.st = 0 := by
          simpa using List.find?_some hfb
        rw [← heq] at hby2
        exact compare_to_symm_zero cmp hsymm hby2
  -- Case: `a` finds the equivalent member `y`.
  · rw [return_unique_fresh_found cmp T a y hma hfa] at hmb ⊢
    simp only at hmb ⊢
    have hay : RenderState.compare_to cmp a.st y.st = 0 := by
      simpa using List.find?_some hfa
    have hymem := List.mem_of_find?_eq_some hfa
    constructor
    · intro hab
      have hcong : T.find? (fun o =>
            decide (RenderState.compare_to cmp b.st o.st = 0)) =
          T.find? (fun o =>
            decide (RenderState.compare_to cmp a.st o.st = 0)) := by
        apply find?_congr_on
        intro o ho
        apply decide_eq_decide.mpr
        constructor
        · intro hbo
          exact compare_to_trans_zero cmp htrans ha hb (hT o ho) hab hbo
        · intro hao
          exact compare_to_trans_zero cmp htrans hb ha (hT o ho)
            (compare_to_symm_zero cmp hsymm hab) hao
      have hfby : T.find? (fun o =>
          decide (RenderState.compare_to cmp b.st o.st = 0)) = some y := by
        rw [hcong, hfa]
      rw [return_unique_fresh_found cmp T b y hmb hfby]
    · intro heq
      rcases hfb : T.find? (fun o =>
          decide (RenderState.compare_to cmp b.st o.st = 0)) with _ | y2
      · rw [return_unique_fresh_new cmp T b hmb hfb] at heq
        simp only at heq
        exfalso
        have hyb : (y.id == b.id) = true := by rw [heq]; simp
        have hany : (T.any fun o => o.id == b.id) = true :=
          List.any_eq_true.mpr ⟨y, hymem, hyb⟩
        rw [hmb] at hany
        exact Bool.false_ne_true hany
      · rw [return_unique_fresh_found cmp T b y2 hmb hfb] at heq
        simp only at heq
        have hby2 : RenderState.compare_to cmp b.st y2.st = 0 := by
          simpa using List.find?_some hfb
        rw [← heq] at hby2
        exact compare_to_trans_zero cmp htrans ha (hT y hymem) hb
          hay (compare_to_symm_zero cmp hsymm hby2)

/-- A first concrete heap object for the C1 witness. -/
def objA : Obj 3 Int := ⟨1, singleState slot1 ⟨some 4, 2⟩⟩

/-- A second concrete heap object, structurally equal to `objA` but at a
different address. -/
def objB : Obj 3 Int := ⟨2, singleState slot1 ⟨some 4, 2⟩⟩

/-- The concrete attribute comparison used by the C1 witness. -/
def cmpInt : Int → Int → Int := fun a b => a - b

/-- Claim C1, witness: interning two structurally-equal fresh objects into
the empty table yields the same canonical object. -/
theorem return_unique_structural_uniqueness_witness :
    (Intern.return_unique cmpInt true [] objA).1 =
      (Intern.return_unique cmpInt true
        (Intern.return_unique cmpInt true [] objA).2 objB).1 :=
  (return_unique_structural_uniqueness cmpInt
      (fun x => by simp [cmpInt])
      (fun x y h => by simp only [cmpInt] at h ⊢; omega)
      (fun x y z h1 h2 => by simp only [cmpInt] at h1 h2 ⊢; omega)
      [] objA objB (by simp) (by decide) (by decide) (by decide)
      (by decide)).mp (by decide)

/-- Claim C9: `remove_attrib` on a slot that holds no attribute takes the
early `return this`, handing back the identical state unchanged. -/
theorem remove_attrib_absent {n : Nat} {α : Type} [DecidableEq α]
    (s : RenderState n α) (k : Fin n)
    (h : (s.attributes k).attrib = none) : s.remove_attrib k = s := by
  simp [RenderState.remove_attrib, h]

/-- Claim C9, witness at the concrete instance. -/
theorem remove_attrib_absent_witness :
    (singleState slot2 ⟨some 7, 0⟩).remove_attrib slot1 =
      singleState slot2 ⟨some 7, 0⟩ :=
  remove_attrib_absent (singleState slot2 ⟨some 7, 0⟩) slot1 (by decide)

/-- Claim C10: the one-argument `set_attrib` replaces only the attribute
pointer of the attribute's slot and sets that slot's filled bit; the
override previously stored there is untouched (still 0 when the slot was
unfilled in a well-formed state), and every other slot is unchanged. -/
theorem set_attrib_spec {n : Nat} {α : Type} [DecidableEq α]
    (ops : AttribOps n α) (s : RenderState n α) (x : α)
    (hwf : s.wf) (h0 : s.slot0_empty) (hk : (ops.get_slot x).val ≠ 0) :
    ((s.set_attrib ops x).attributes (ops.get_slot x)).attrib = some x ∧
    ((s.set_attrib ops x).attributes (ops.get_slot x)).override =
      (s.attributes (ops.get_slot x)).override ∧
    (s.set_attrib ops x).filled_slots (ops.get_slot x) = true ∧
    (s.filled_slots (ops.get_slot x) = false →
      ((s.set_attrib ops x).attributes (ops.get_slot x)).override = 0) ∧
    (∀ j, j ≠ ops.get_slot x →
      (s.set_attrib ops x).attributes j = s.attributes j ∧
      (s.set_attrib ops x).filled_slots j = s.filled_slots j) := by
  refine ⟨?_, ?_, ?_, ?_, ?_⟩
  · simp [RenderState.set_attrib, RenderState.return_new, hk]
  · simp [RenderState.set_attrib, RenderState.return_new, hk]
  · simp [RenderState.set_attrib, RenderState.return_new, hk]
  · intro hf
    have := (hwf (ops.get_slot x)).2 hf
    simp [RenderState.set_attrib, RenderState.return_new, hk, this]
  · intro j hj
    by_cases hj0 : j.val = 0
    · have h0j := h0 j hj0
      simp [RenderState.set_attrib, RenderState.return_new, hj0, h0j.1,
        h0j.2]
    · simp [RenderState.set_attrib, RenderState.return_new, hj0, hj]

/-- Claim C10, witness at the concrete instance. -/
theorem set_attrib_spec_witness :
    (((singleState slot2 ⟨some 7, 0⟩).set_attrib ops0 4).attributes
        (ops0.get_slot 4)).attrib = some 4 ∧
    ((singleState slot2 ⟨some 7, 0⟩).set_attrib ops0 4).filled_slots
        (ops0.get_slot 4) = true :=
  ⟨(set_attrib_spec ops0 (singleState slot2 ⟨some 7, 0⟩) 4 (by decide)
      (by decide) (by decide)).1,
   (set_attrib_spec ops0 (singleState slot2 ⟨some 7, 0⟩) 4 (by decide)
      (by decide) (by decide)).2.2.1⟩

end Panda

namespace Prc

/-- Helper: the erase loop finds the page iff it is in the list, and then
removes exactly its first occurrence. -/
theorem eraseFirst_eq (page : Nat) (l : List Nat) :
    eraseFirst page l =
      if page ∈ l then some (l.erase page) else none := by
  induction l with
  | nil => simp [eraseFirst]
  | cons p ps ih =>
      by_cases h : p = page
      · subst h
        simp [eraseFirst, List.erase_cons]
      · simp [eraseFirst, ih, List.erase_cons, h, Ne.symm h]

/-- Claim C8: `delete_explicit_page(page)` returns true exactly when the
page is in the explicit-page list; when found, the page is removed from the
list and destroyed and the variable cache is invalidated, with all other
manager fields untouched; when not found, it returns false and the manager
is unchanged. -/
theorem delete_explicit_page_spec (m : ConfigPageManager) (page : Nat) :
    ((m.delete_explicit_page page).result = true ↔
      page ∈ m.explicit_pages) ∧
    (if page ∈ m.explicit_pages then
        (m.delete_explicit_page page).mgr.explicit_pages =
          m.explicit_pages.erase page ∧
        (m.delete_explicit_page page).page_destroyed = true ∧
        (m.delete_explicit_page page).cache_invalidated = true ∧
        (m.delete_explicit_page page).mgr.implicit_pages =
          m.implicit_pages ∧
        (m.delete_explicit_page page).mgr.pages_sorted = m.pages_sorted ∧
        (m.delete_explicit_page page).mgr.next_page_seq = m.next_page_seq
      else
        m.delete_explicit_page page =
          ⟨false, m, false, false⟩) := by
  by_cases h : page ∈ m.explicit_pages <;>
    simp [ConfigPageManager.delete_explicit_page, eraseFirst_eq, h]

/-- The chain of directories visited by the upward scan: the starting
directory, its parent, and so on, ending at the filesystem root (the
directory that is its own dirname). -/
def ancestorChain (dir : Path) : List Path :=
  if dir.dropLast = dir then [dir]
  else dir :: ancestorChain dir.dropLast
termination_by dir.length
decreasing_by
  simp only [List.length_dropLast]
  rcases dir with _ | ⟨x, xs⟩
  · simp_all
  · simp [Nat.sub_lt_iff_lt_add]

/-- Helper: `scan_up_from` returns exactly the first directory of the
upward chain (with the suffix appended) that contains a file matching a
read or executable pattern, and `none` when no directory of the chain up to
the root does. -/
theorem scan_up_from_eq_find (fs : FileSystem) (readPats exePats : List Glob)
    (suffix : Path) : ∀ dir : Path,
    scan_up_from fs readPats exePats dir suffix =
      ((ancestorChain dir).map (fun d => d ++ suffix)).find?
        (dirHasMatch fs readPats exePats) := by
  have H : ∀ m : Nat, ∀ dir : Path, dir.length ≤ m →
      scan_up_from fs readPats exePats dir suffix =
        ((ancestorChain dir).map (fun d => d ++ suffix)).find?
          (dirHasMatch fs readPats exePats) := by
    intro m
    induction m with
    | zero =>
        intro dir hlen
        have hnil : dir = [] := List.length_eq_zero.mp (Nat.le_zero.mp hlen)
        subst hnil
        rw [scan_up_from, ancestorChain]
        simp only [List.dropLast_nil, List.nil_append, if_pos rfl,
          List.map_cons, List.map_nil, List.find?]
        cases dirHasMatch fs readPats exePats suffix <;> simp
    | succ m ih =>
        intro dir hlen
        rw [scan_up_from, ancestorChain]
        by_cases hroot : dir.dropLast = dir
        · by_cases hm : dirHasMatch fs readPats exePats (dir ++ suffix) <;>
            simp [hroot, hm, List.find?]
        · have hne : dir ≠ [] := by
            intro h; exact hroot (by simp [h])
          have hlen' : dir.dropLast.length ≤ m := by
            have : 0 < dir.length := List.length_pos.mpr hne
            simp only [List.length_dropLast]
            omega
          by_cases hm : dirHasMatch fs readPats exePats (dir ++ suffix) <;>
            simp [hroot, hm, List.find?, ih dir.dropLast hlen']
  exact fun dir => H dir.length dir le_rfl

/-- Claim C7: a search-path directory whose name does not begin with the
`<auto>` marker is accepted unchanged; one that does is resolved to the
first directory — scanning strictly upward, parent by parent down to the
filesystem root, first from the dtool library's directory and then from
`MAIN_DIR` — that contains at least one file matching the read patterns or
the executable patterns; when no scan succeeds the result is `none` and the
caller omits the directory. -/
theorem scan_auto_prc_dir_spec (fs : FileSystem)
    (readPats exePats : List Glob) (dtoolDir mainDir prc_dir : Path) :
    (prc_dir.head? ≠ some autoMark →
      scan_auto_prc_dir fs readPats exePats dtoolDir mainDir prc_dir =
        some prc_dir) ∧
    (prc_dir.head? = some autoMark →
      scan_auto_prc_dir fs readPats exePats dtoolDir mainDir prc_dir =
        (((ancestorChain dtoolDir).map (fun d => d ++ prc_dir.tail)).find?
            (dirHasMatch fs readPats exePats)).or
          (((ancestorChain mainDir).map (fun d => d ++ prc_dir.tail)).find?
            (dirHasMatch fs readPats exePats))) := by
  constructor
  · intro h
    simp [scan_auto_prc_dir, h]
  · intro h
    rw [scan_auto_prc_dir]
    simp only [h, if_true, scan_up_from_eq_find]
    rcases ((ancestorChain dtoolDir).map (fun d => d ++ prc_dir.tail)).find?
        (dirHasMatch fs readPats exePats) with _ | found
    · simp only [Option.or]
      rcases ((ancestorChain mainDir).map (fun d => d ++ prc_dir.tail)).find?
          (dirHasMatch fs readPats exePats) with _ | found2 <;> rfl
    · rfl

/-- A concrete filesystem for the witness: only `repo/sub` is a directory
with a listing, holding one file. -/
def fs0 : FileSystem := fun d =>
  if d = ["repo", "sub"] then some ["app.prc"] else none

/-- A concrete read-pattern list matching exactly `app.prc`. -/
def readPats0 : List Glob := [fun f => decide (f = "app.prc")]

/-- Claim C7, witness: running from `repo/bin`, the directory
`<auto>/sub` resolves to `repo/sub` (one level up from the start, suffix
appended), and a directory without the marker is returned unchanged. -/
theorem scan_auto_prc_dir_spec_witness :
    scan_auto_prc_dir fs0 readPats0 [] ["repo", "bin"] ["main"]
        [autoMark, "sub"] = some ["repo", "sub"] ∧
    scan_auto_prc_dir fs0 readPats0 [] ["repo", "bin"] ["main"]
        ["etc"] = some ["etc"] := by
  constructor
  · rw [(scan_auto_prc_dir_spec fs0 readPats0 [] ["repo", "bin"] ["main"]
        [autoMark, "sub"]).2 rfl]
    rw [ancestorChain, ancestorChain, ancestorChain]
    rw [ancestorChain]
    simp [dirHasMatch, fs0, readPats0, List.find?_cons]
  · exact (scan_auto_prc_dir_spec fs0 readPats0 [] ["repo", "bin"] ["main"]
        ["etc"]).1 (by simp [autoMark])

end Prc
